import Mathlib

/-!
Formal model of `src/meshrefine/refine_and_export.py` (the meshrefine
repository).  The script is a CLI driver: it parses arguments, derives
default output paths, loads a Zinc region, iterates the elements of the
dominant mesh, calls an external refinement routine per element, and
writes two output files.  We embed the driver's control flow shallowly:
paths are lists of characters, the filesystem and the region contents
are oracles supplied by an `Env`, and a run is summarised by the files
read, the per-element refinement calls issued, the files written, and
the Python exception (if any) that aborted the run.
-/

namespace MeshRefine

/-- Paths and raw argument strings are modelled as lists of characters. -/
abbrev Path := List Char

/-- Python exceptions observable in the driver: `IndexError` (list index
out of range), `ValueError` (failed `int()` conversion, and the explicit
`raise ValueError('Model contains no mesh')` in `_get_mesh`), and the
spec's `InvalidRefinementSpecError` raised by the modelled engine. -/
inductive Err where
  | indexError
  | valueError
  | invalidRefinementSpecError
deriving DecidableEq

/-- Abstract state of a loaded Zinc region: for each dimension, the
number of elements of the mesh of that dimension (`Mesh.getSize`).  The
actual contents come from external file codecs, so they are an oracle. -/
structure Region where
  meshSize : Nat → Nat

/-- Observable effects and outcome of one run of the driver:
files read via `region.readFile`, refinement calls
`refineElementCubeStandard3d(element, n1, n2, n3)` in element order
(recording the counts passed), files written via `writeFile`, and the
exception that aborted the run, if any. -/
structure RunResult where
  reads : List Path
  refines : List (Nat × Nat × Nat)
  writes : List Path
  error : Option Err
deriving DecidableEq

/-- Environment oracles: `os.path.exists`, and the region contents that
result from reading a given list of files into a fresh region. -/
structure Env where
  pathExists : Path → Bool
  regionOf : List Path → Region

/-- Command-line arguments as bound by `parse_args` (lines 109-123):
positional `input_ex`, and the optional `-exelem`, `-r` alias
`--refine_factor` (a raw string), `-oe` alias `--output_ex`, `-ov`
alias `--output_vtk`. -/
structure Args where
  input_ex : Path
  exelem : Option Path
  refine_factor : Option Path
  output_ex : Option Path
  output_vtk : Option Path

/-- Embeds `RefineAndExport._get_mesh` (lines 69-74): the loop
`for dimension in range(3, 0, -1)` unrolled to dimensions 3, 2, 1;
returns the dimension of the first mesh with `getSize() > 0`, `none`
standing for `raise ValueError('Model contains no mesh')`. -/
def getMesh (r : Region) : Option Nat :=
  if 0 < r.meshSize 3 then some 3
  else if 0 < r.meshSize 2 then some 2
  else if 0 < r.meshSize 1 then some 1
  else none

/-- Embeds the per-element count selection in `RefineAndExport._refine`
(lines 56-64): `number_in_xi1 = rf[0]` (IndexError when the list is
empty, modelled as `none`), `number_in_xi2 = rf[1] if len(rf) > 1 else
1`, `number_in_xi3 = rf[2] if len(rf) > 2 else 1`. -/
def countsFromSpec : List Nat → Option (Nat × Nat × Nat)
  | [] => none
  | [n1] => some (n1, 1, 1)
  | [n1, n2] => some (n1, n2, 1)
  | n1 :: n2 :: n3 :: _ => some (n1, n2, n3)

/-- Modelled from the spec: `MeshRefinement.refineElementCubeStandard3d`
is provided by the external scaffoldmaker package and is not under
`src/`.  Per spec section 4.3 the refinement engine fails with
`InvalidRefinementSpecError` when any subdivision count is < 1, and
otherwise refines the element into an n1 by n2 by n3 grid (we record
only the counts used). -/
def refineElementCubeStandard3d (n1 n2 n3 : Nat) : Except Err (Nat × Nat × Nat) :=
  if n1 < 1 ∨ n2 < 1 ∨ n3 < 1 then Except.error Err.invalidRefinementSpecError
  else Except.ok (n1, n2, n3)

/-- Embeds the `while element.isValid()` loop of `_refine` (lines
53-66) over a mesh with the given number of elements: each iteration
recomputes the counts from the refine factor and calls the engine;
the first exception aborts the loop. -/
def refineLoop (rf : List Nat) : Nat → List (Nat × Nat × Nat) × Option Err
  | 0 => ([], none)
  | n + 1 =>
    match countsFromSpec rf with
    | none => ([], some Err.indexError)
    | some (a, b, c) =>
      match refineElementCubeStandard3d a b c with
      | Except.error e => ([], some e)
      | Except.ok call =>
        let rest := refineLoop rf n
        (call :: rest.1, rest.2)

/-- Files read by `RefineAndExport.__init__` (lines 27-29): the input
Zinc file always, then the exelem file when one is passed. -/
def readList (input : Path) (exelem : Option Path) : List Path :=
  input :: (match exelem with | some e => [e] | none => [])

/-- Embeds `RefineAndExport.__init__` (lines 23-47): read the input
file (and the exelem file when given), find the dominant mesh, refine
every element, then write the Zinc output and the VTK output.  The
annotation-group bookkeeping (lines 31-35, 45-46) raises nothing in the
model and is not recorded.  An exception aborts the run before any
output file is written (the two `writeFile` calls are after `_refine`). -/
def refineAndExport (env : Env) (input : Path) (exelem : Option Path)
    (rf : List Nat) (outZinc outVtk : Path) : RunResult :=
  match getMesh (env.regionOf (readList input exelem)) with
  | none => ⟨readList input exelem, [], [], some Err.valueError⟩
  | some d =>
    match refineLoop rf ((env.regionOf (readList input exelem)).meshSize d) with
    | (calls, some e) => ⟨readList input exelem, calls, [], some e⟩
    | (calls, none) => ⟨readList input exelem, calls, [outZinc, outVtk], none⟩

/-- Python's `str.split('.')` on a list of characters: splits at every
dot; `splitDot [] = [[]]`, and the result is never empty. -/
def splitDot : List Char → List (List Char)
  | [] => [[]]
  | c :: cs =>
    if c = '.' then [] :: splitDot cs
    else
      match splitDot cs with
      | s :: ss => (c :: s) :: ss
      | [] => [[c]]

/-- Inverse of `splitDot`: rejoin segments with a dot. -/
def joinDot : List (List Char) → List Char
  | [] => []
  | [s] => s
  | s :: t :: ts => s ++ '.' :: joinDot (t :: ts)

/-- Python's `os.path.basename` for POSIX paths: the part after the
last slash. -/
def posix_basename (p : Path) : Path :=
  (p.reverse.takeWhile (fun c => c != '/')).reverse

/-- Python's `os.path.dirname` for POSIX paths: the part up to the last
slash, with trailing slashes stripped unless the head is all slashes. -/
def posix_dirname (p : Path) : Path :=
  let head := (p.reverse.dropWhile (fun c => c != '/')).reverse
  if head = [] ∨ head.all (fun c => c == '/') then head
  else (head.reverse.dropWhile (fun c => c == '/')).reverse

/-- Python's `os.path.join` for POSIX paths, two arguments. -/
def posix_join (a b : Path) : Path :=
  if b.head? = some '/' then b
  else if a = [] ∨ a.getLast? = some '/' then a ++ b
  else a ++ '/' :: b

/-- Embeds the default `-oe` derivation in `main` (lines 80-83):
`os.path.join(dirname, filename.split('.')[0] + '_refined.' +
filename.split('.')[1])`; `none` stands for the IndexError raised by
`filename.split('.')[1]` when the basename has no dot. -/
def defaultOutputEx (input : Path) : Option Path :=
  match splitDot (posix_basename input) with
  | s0 :: s1 :: _ =>
    some (posix_join (posix_dirname input) (s0 ++ ("_refined.".data) ++ s1))
  | _ => none

/-- Embeds the default `-ov` derivation in `main` (lines 87-90):
`os.path.join(dirname, filename.split('.')[0] + '_refined.vtk')`. -/
def defaultOutputVtk (input : Path) : Path :=
  posix_join (posix_dirname input)
    ((splitDot (posix_basename input)).headD [] ++ ("_refined.vtk".data))

/-- Split a name at its last dot: `(stem, extension)`; when there is no
dot the whole name is the stem and the extension is empty.  Used only
to formalise the claims' reading of basename and extension. -/
def lastDotSplit (l : Path) : Path × Path :=
  if '.' ∈ l then
    (((l.reverse.dropWhile (fun c => c != '.')).drop 1).reverse,
     (l.reverse.takeWhile (fun c => c != '.')).reverse)
  else (l, [])

/-- Formalises the claimed default for `-oe`: the input basename with
`_refined` inserted before its extension, beside the input. -/
def claimedDefaultOutputEx (input : Path) : Path :=
  posix_join (posix_dirname input)
    ((lastDotSplit (posix_basename input)).1 ++ ("_refined.".data)
      ++ (lastDotSplit (posix_basename input)).2)

/-- Formalises the claimed default for `-ov`: the input basename (stem)
followed by `_refined.vtk`, beside the input. -/
def claimedDefaultOutputVtk (input : Path) : Path :=
  posix_join (posix_dirname input)
    ((lastDotSplit (posix_basename input)).1 ++ ("_refined.vtk".data))

/-- Python's `int(c)` on a single character, as used by
`[int(i) for i in list(args.refine_factor)]` (line 100): an ASCII digit
(codepoint 48-57) yields its value, anything else raises ValueError. -/
def charToInt (c : Char) : Except Err Nat :=
  if 48 ≤ c.toNat ∧ c.toNat ≤ 57 then Except.ok (c.toNat - 48)
  else Except.error Err.valueError

/-- Embeds line 100, `[int(i) for i in list(args.refine_factor)]`:
convert every character left to right; the first failure raises. -/
def parseRefineFactor : List Char → Except Err (List Nat)
  | [] => Except.ok []
  | c :: cs =>
    match charToInt c with
    | Except.error e => Except.error e
    | Except.ok n =>
      match parseRefineFactor cs with
      | Except.error e => Except.error e
      | Except.ok ns => Except.ok (n :: ns)

/-- Embeds lines 97-100 of `main`: the refine factor defaults to
`[4, 4, 1]` when `-r` is omitted, otherwise the option string is parsed
character by character. -/
def effectiveRefineFactor (a : Args) : Except Err (List Nat) :=
  match a.refine_factor with
  | none => Except.ok [4, 4, 1]
  | some s => parseRefineFactor s

/-- Embeds lines 80-85 of `main`: the Zinc output path is the `-oe`
value when given, otherwise the derived default (which can raise). -/
def resolvedOutputEx (a : Args) : Option Path :=
  match a.output_ex with
  | none => defaultOutputEx a.input_ex
  | some p => some p

/-- Embeds lines 87-92 of `main`: the VTK output path is the `-ov`
value when given, otherwise the derived default. -/
def resolvedOutputVtk (a : Args) : Path :=
  match a.output_vtk with
  | none => defaultOutputVtk a.input_ex
  | some p => p

/-- Embeds `main` (lines 77-106).  Everything is guarded by
`os.path.exists(args.input_ex)`; a missing input is a silent no-op.
Output paths are derived before any file is read.  Note that lines
94-95 bind `exelem_file = args.exelem` but line 103 passes
`input_exelem_file=None`, so the constructor is always called with no
exelem file, whatever `-exelem` was given. -/
def mainModel (env : Env) (a : Args) : RunResult :=
  match env.pathExists a.input_ex with
  | false => ⟨[], [], [], none⟩
  | true =>
    match resolvedOutputEx a with
    | none => ⟨[], [], [], some Err.indexError⟩
    | some outEx =>
      match effectiveRefineFactor a with
      | Except.error e => ⟨[], [], [], some e⟩
      | Except.ok rf =>
        refineAndExport env a.input_ex none rf outEx (resolvedOutputVtk a)

/-- Concrete region with two elements of dimension 3, used to
instantiate theorems at concrete inputs. -/
def demoRegion : Region := ⟨fun d => if d = 3 then 2 else 0⟩

/-- Concrete environment in which only `input.ex` exists and every load
yields `demoRegion`. -/
def demoEnv : Env := ⟨fun p => p == ("input.ex".data), fun _ => demoRegion⟩

/-- Concrete environment in which only `d/a.b.c` exists. -/
def multiDotEnv : Env := ⟨fun p => p == ("d/a.b.c".data), fun _ => demoRegion⟩

/-- Concrete environment in which no path exists. -/
def absentEnv : Env := ⟨fun _ => false, fun _ => demoRegion⟩

/-- Concrete region with no elements at any dimension. -/
def emptyRegion : Region := ⟨fun _ => 0⟩

/-- Concrete environment in which every path exists and every load
yields the empty region. -/
def emptyEnv : Env := ⟨fun _ => true, fun _ => emptyRegion⟩

/-- Concrete environment in which only `dir/inputex` (a dotless
basename) exists. -/
def dotlessEnv : Env := ⟨fun p => p == ("dir/inputex".data), fun _ => demoRegion⟩

theorem getMesh_pos (r : Region) (d : Nat) (h : getMesh r = some d) :
    0 < r.meshSize d := by
  unfold getMesh at h
  split_ifs at h <;> simp_all

theorem countsFromSpec_zero (rf : List Nat) (hlen : rf.length ≤ 3) (h0 : 0 ∈ rf) :
    ∃ a b c, countsFromSpec rf = some (a, b, c) ∧ (a = 0 ∨ b = 0 ∨ c = 0) := by
  match rf with
  | [] => simp at h0
  | [x] =>
    refine ⟨x, 1, 1, rfl, ?_⟩
    simp at h0
    omega
  | [x, y] =>
    refine ⟨x, y, 1, rfl, ?_⟩
    simp at h0
    omega
  | [x, y, z] =>
    refine ⟨x, y, z, rfl, ?_⟩
    simp at h0
    omega
  | _ :: _ :: _ :: _ :: _ => simp at hlen

theorem refineECS_ok (a b c : Nat) (h : ¬ (a < 1 ∨ b < 1 ∨ c < 1)) :
    refineElementCubeStandard3d a b c = Except.ok (a, b, c) := by
  unfold refineElementCubeStandard3d
  rw [if_neg h]

theorem refineECS_err (a b c : Nat) (h : a < 1 ∨ b < 1 ∨ c < 1) :
    refineElementCubeStandard3d a b c
      = Except.error Err.invalidRefinementSpecError := by
  unfold refineElementCubeStandard3d
  rw [if_pos h]

theorem refineLoop_ok (rf : List Nat) (a b c : Nat)
    (h : countsFromSpec rf = some (a, b, c))
    (ha : 1 ≤ a) (hb : 1 ≤ b) (hc : 1 ≤ c) :
    ∀ n, refineLoop rf n = (List.replicate n (a, b, c), none) := by
  intro n
  induction n with
  | zero => rfl
  | succ m ih =>
    simp only [refineLoop, h, refineECS_ok a b c (by omega)]
    simp [ih, List.replicate_succ]

theorem refineLoop_zero_err (rf : List Nat) (a b c : Nat)
    (h : countsFromSpec rf = some (a, b, c)) (hz : a = 0 ∨ b = 0 ∨ c = 0)
    (m : Nat) :
    refineLoop rf (m + 1) = ([], some Err.invalidRefinementSpecError) := by
  simp only [refineLoop, h, refineECS_err a b c (by omega)]

theorem refineLoop_mem (rf : List Nat) (n : Nat) (x : Nat × Nat × Nat)
    (hx : x ∈ (refineLoop rf n).1) : countsFromSpec rf = some x := by
  induction n with
  | zero => simp [refineLoop] at hx
  | succ m ih =>
    cases hcs : countsFromSpec rf with
    | none => simp only [refineLoop, hcs] at hx; simp at hx
    | some t =>
      obtain ⟨a, b, c⟩ := t
      by_cases hlt : a < 1 ∨ b < 1 ∨ c < 1
      · simp only [refineLoop, hcs, refineECS_err a b c hlt] at hx
        simp at hx
      · simp only [refineLoop, hcs, refineECS_ok a b c hlt] at hx
        simp at hx
        rcases hx with h1 | h2
        · rw [h1]
        · rw [← hcs]
          exact ih h2

theorem splitDot_ne_nil (l : List Char) : splitDot l ≠ [] := by
  induction l with
  | nil => simp [splitDot]
  | cons c cs ih =>
    unfold splitDot
    by_cases hc : c = '.'
    · rw [if_pos hc]; simp
    · rw [if_neg hc]
      cases hsp : splitDot cs with
      | nil => simp
      | cons s ss => simp

theorem splitDot_no_dot (l : List Char) (h : ('.' : Char) ∉ l) :
    splitDot l = [l] := by
  induction l with
  | nil => rfl
  | cons c cs ih =>
    have hc : ¬ c = '.' := by
      intro e
      exact h (by rw [e]; exact List.mem_cons_self _ _)
    have hcs : ('.' : Char) ∉ cs := fun m => h (List.mem_cons_of_mem _ m)
    unfold splitDot
    rw [if_neg hc, ih hcs]

theorem splitDot_mem_no_dot (l : List Char) (s : List Char)
    (hs : s ∈ splitDot l) : ('.' : Char) ∉ s := by
  induction l generalizing s with
  | nil =>
    simp [splitDot] at hs
    simp [hs]
  | cons c cs ih =>
    unfold splitDot at hs
    by_cases hc : c = '.'
    · rw [if_pos hc] at hs
      rcases List.mem_cons.mp hs with h1 | h2
      · simp [h1]
      · exact ih s h2
    · rw [if_neg hc] at hs
      cases hsp : splitDot cs with
      | nil => exact absurd hsp (splitDot_ne_nil cs)
      | cons t ts =>
        rw [hsp] at hs
        rcases List.mem_cons.mp hs with h1 | h2
        · subst h1
          intro hmem
          rcases List.mem_cons.mp hmem with e | e2
          · exact hc e.symm
          · exact ih t (by rw [hsp]; exact List.mem_cons_self _ _) e2
        · exact ih s (by rw [hsp]; exact List.mem_cons_of_mem _ h2)

theorem joinDot_splitDot (l : List Char) : joinDot (splitDot l) = l := by
  induction l with
  | nil => rfl
  | cons c cs ih =>
    unfold splitDot
    by_cases hc : c = '.'
    · rw [if_pos hc]
      cases hsp : splitDot cs with
      | nil => exact absurd hsp (splitDot_ne_nil cs)
      | cons t ts =>
        rw [hsp] at ih
        show joinDot ([] :: t :: ts) = c :: cs
        rw [hc]
        show '.' :: joinDot (t :: ts) = '.' :: cs
        rw [ih]
    · rw [if_neg hc]
      cases hsp : splitDot cs with
      | nil => exact absurd hsp (splitDot_ne_nil cs)
      | cons t ts =>
        rw [hsp] at ih
        cases ts with
        | nil =>
          show joinDot [c :: t] = c :: cs
          show c :: t = c :: cs
          have : t = cs := ih
          rw [this]
        | cons u us =>
          show joinDot ((c :: t) :: u :: us) = c :: cs
          show (c :: t) ++ '.' :: joinDot (u :: us) = c :: cs
          rw [List.cons_append]
          show c :: joinDot (t :: u :: us) = c :: cs
          rw [ih]

theorem splitDot_head_takeWhile (l : List Char) :
    (splitDot l).headD [] = l.takeWhile (fun c => c != '.') := by
  induction l with
  | nil => rfl
  | cons c cs ih =>
    unfold splitDot
    by_cases hc : c = '.'
    · rw [if_pos hc]
      simp [List.takeWhile_cons, hc]
    · rw [if_neg hc]
      cases hsp : splitDot cs with
      | nil => exact absurd hsp (splitDot_ne_nil cs)
      | cons t ts =>
        rw [hsp] at ih
        simp [List.takeWhile_cons, hc] at ih ⊢
        exact ih

theorem takeWhile_middle (p : Char → Bool) (l r : List Char) (x : Char)
    (hl : ∀ c ∈ l, p c = true) (hx : p x = false) :
    (l ++ x :: r).takeWhile p = l := by
  induction l with
  | nil => simp [List.takeWhile_cons, hx]
  | cons a as ih =>
    simp only [List.cons_append, List.takeWhile_cons,
      hl a (List.mem_cons_self _ _), if_true]
    rw [ih (fun c hc => hl c (List.mem_cons_of_mem _ hc))]

theorem dropWhile_middle (p : Char → Bool) (l r : List Char) (x : Char)
    (hl : ∀ c ∈ l, p c = true) (hx : p x = false) :
    (l ++ x :: r).dropWhile p = x :: r := by
  induction l with
  | nil => simp [List.dropWhile_cons, hx]
  | cons a as ih =>
    simp only [List.cons_append, List.dropWhile_cons,
      hl a (List.mem_cons_self _ _), if_true]
    exact ih (fun c hc => hl c (List.mem_cons_of_mem _ hc))

theorem lastDotSplit_eq (s0 s1 : List Char)
    (h1 : ('.' : Char) ∉ s1) :
    lastDotSplit (s0 ++ '.' :: s1) = (s0, s1) := by
  have hmem : ('.' : Char) ∈ s0 ++ '.' :: s1 :=
    List.mem_append.mpr (Or.inr (List.mem_cons_self _ _))
  have hrev : (s0 ++ '.' :: s1).reverse = s1.reverse ++ '.' :: s0.reverse := by
    simp [List.reverse_append]
  have hall : ∀ c ∈ s1.reverse, (c != '.') = true := by
    intro c hc
    have : c ∈ s1 := List.mem_reverse.mp hc
    simp
    intro e
    exact h1 (e ▸ this)
  have hdot : (('.' : Char) != '.') = false := by simp
  unfold lastDotSplit
  rw [if_pos hmem, hrev, takeWhile_middle _ _ _ _ hall hdot,
    dropWhile_middle _ _ _ _ hall hdot]
  simp

theorem lastDotSplit_no_dot (l : List Char) (h : ('.' : Char) ∉ l) :
    lastDotSplit l = (l, []) := by
  unfold lastDotSplit
  rw [if_neg h]

theorem parseRefineFactor_ok (s : List Char) :
    (∀ c ∈ s, 48 ≤ c.toNat ∧ c.toNat ≤ 57) →
    parseRefineFactor s = Except.ok (s.map (fun c => c.toNat - 48)) := by
  induction s with
  | nil => intro _; rfl
  | cons c cs ih =>
    intro hall
    have hc := hall c (List.mem_cons_self _ _)
    have hrec := ih (fun x hx => hall x (List.mem_cons_of_mem _ hx))
    unfold parseRefineFactor charToInt
    rw [if_pos hc]
    simp only [hrec]
    rfl

theorem parseRefineFactor_err (s : List Char) :
    (∃ c ∈ s, ¬ (48 ≤ c.toNat ∧ c.toNat ≤ 57)) →
    parseRefineFactor s = Except.error Err.valueError := by
  induction s with
  | nil => intro h; simp at h
  | cons c cs ih =>
    intro h
    by_cases hc : 48 ≤ c.toNat ∧ c.toNat ≤ 57
    · have hex : ∃ x ∈ cs, ¬ (48 ≤ x.toNat ∧ x.toNat ≤ 57) := by
        rcases h with ⟨x, hx, hnx⟩
        rcases List.mem_cons.mp hx with e | e2
        · exact absurd (by rw [e]; exact hc) hnx
        · exact ⟨x, e2, hnx⟩
      unfold parseRefineFactor charToInt
      rw [if_pos hc]
      simp only [ih hex]
    · unfold parseRefineFactor charToInt
      rw [if_neg hc]

/-- Claim C1 (code bug): the source binds `exelem_file = args.exelem`
(lines 94-95) but passes `input_exelem_file=None` (line 103), so a run
with `-exelem extra.exelem` on an existing `input.ex` reads only the
input file; the supplementary file is never read into the region. -/
theorem c1_exelem_never_read :
    (mainModel demoEnv
        ⟨("input.ex".data), some ("extra.exelem".data), none, none, none⟩).reads
      = [("input.ex".data)] ∧
    ("extra.exelem".data) ∉
      (mainModel demoEnv
        ⟨("input.ex".data), some ("extra.exelem".data), none, none, none⟩).reads := by
  exact ⟨by decide, by decide⟩

/-- Claim C2: when the positional input path does not exist, `main`
reads nothing, refines nothing, writes nothing, raises nothing, and
terminates normally. -/
theorem c2_missing_input_silent_noop (env : Env) (a : Args)
    (h : env.pathExists a.input_ex = false) :
    mainModel env a = ⟨[], [], [], none⟩ := by
  unfold mainModel
  rw [h]

theorem c2_witness :
    absentEnv.pathExists ("missing.ex".data) = false ∧
    mainModel absentEnv ⟨("missing.ex".data), none, none, none, none⟩
      = ⟨[], [], [], none⟩ :=
  ⟨rfl, c2_missing_input_silent_noop absentEnv
    ⟨("missing.ex".data), none, none, none, none⟩ rfl⟩

/-- Claim C3: for a refinement spec of one to three values containing a
zero, a run over a region with a nonempty dominant mesh aborts with
`InvalidRefinementSpecError` and writes no output file (the engine is
modelled from the spec; see `refineElementCubeStandard3d`). -/
theorem c3_zero_spec_fails (env : Env) (input : Path) (rf : List Nat)
    (outZ outV : Path) (d : Nat) (hlen : rf.length ≤ 3) (hzero : 0 ∈ rf)
    (hmesh : getMesh (env.regionOf [input]) = some d) :
    (refineAndExport env input none rf outZ outV).error
        = some Err.invalidRefinementSpecError ∧
    (refineAndExport env input none rf outZ outV).writes = [] := by
  obtain ⟨a, b, c, hcs, hz⟩ := countsFromSpec_zero rf hlen hzero
  have hpos : 0 < (env.regionOf [input]).meshSize d := getMesh_pos _ _ hmesh
  obtain ⟨m, hm⟩ : ∃ m, (env.regionOf [input]).meshSize d = m + 1 :=
    ⟨(env.regionOf [input]).meshSize d - 1, by omega⟩
  have hloop := refineLoop_zero_err rf a b c hcs hz m
  unfold refineAndExport
  simp only [readList, hmesh, hm, hloop]
  exact ⟨trivial, trivial⟩

theorem c3_witness :
    ([4, 0] : List Nat).length ≤ 3 ∧ (0 : Nat) ∈ [4, 0] ∧
    getMesh (demoEnv.regionOf [("input.ex".data)]) = some 3 ∧
    (refineAndExport demoEnv ("input.ex".data) none [4, 0]
        ("o.ex".data) ("o.vtk".data)).error
      = some Err.invalidRefinementSpecError ∧
    (refineAndExport demoEnv ("input.ex".data) none [4, 0]
        ("o.ex".data) ("o.vtk".data)).writes = [] := by
  have h := c3_zero_spec_fails demoEnv ("input.ex".data) [4, 0]
    ("o.ex".data) ("o.vtk".data) 3 (by decide) (by decide) (by decide)
  exact ⟨by decide, by decide, by decide, h.1, h.2⟩

/-- Claim C4: the dominant-mesh lookup tries dimensions 3, 2, 1 in that
order, returns the first with at least one element, and when every
dimension is empty the run fails with an error (the source raises
`ValueError('Model contains no mesh')`) before writing anything. -/
theorem c4_dominant_mesh_lookup (r : Region) :
    (0 < r.meshSize 3 → getMesh r = some 3) ∧
    (r.meshSize 3 = 0 → 0 < r.meshSize 2 → getMesh r = some 2) ∧
    (r.meshSize 3 = 0 → r.meshSize 2 = 0 → 0 < r.meshSize 1 →
      getMesh r = some 1) ∧
    (r.meshSize 3 = 0 → r.meshSize 2 = 0 → r.meshSize 1 = 0 →
      getMesh r = none ∧
      ∀ (env : Env) (input : Path) (rf : List Nat) (oz ov : Path),
        env.regionOf [input] = r →
        (refineAndExport env input none rf oz ov).error = some Err.valueError ∧
        (refineAndExport env input none rf oz ov).writes = []) := by
  refine ⟨?_, ?_, ?_, ?_⟩
  · intro h3
    unfold getMesh
    rw [if_pos h3]
  · intro h3 h2
    unfold getMesh
    rw [if_neg (by omega), if_pos h2]
  · intro h3 h2 h1
    unfold getMesh
    rw [if_neg (by omega), if_neg (by omega), if_pos h1]
  · intro h3 h2 h1
    have hg : getMesh r = none := by
      unfold getMesh
      rw [if_neg (by omega), if_neg (by omega), if_neg (by omega)]
    refine ⟨hg, ?_⟩
    intro env input rf oz ov henv
    unfold refineAndExport
    simp only [readList, henv, hg]
    exact ⟨trivial, trivial⟩

theorem c4_witness :
    getMesh demoRegion = some 3 ∧
    getMesh emptyRegion = none ∧
    (refineAndExport emptyEnv ("input.ex".data) none [4, 4, 1]
        ("o.ex".data) ("o.vtk".data)).error = some Err.valueError := by
  have h1 := (c4_dominant_mesh_lookup demoRegion).1 (by decide)
  have h2 := (c4_dominant_mesh_lookup emptyRegion).2.2.2 rfl rfl rfl
  exact ⟨h1, h2.1,
    (h2.2 emptyEnv ("input.ex".data) [4, 4, 1] ("o.ex".data) ("o.vtk".data) rfl).1⟩

/-- Claim C5: when the refine-factor option is omitted, the factors
used are exactly `[4, 4, 1]`: the parsed factor is `[4, 4, 1]` and
every element of the dominant mesh is refined with counts (4, 4, 1). -/
theorem c5_default_refine_factor (env : Env) (a : Args) (oe : Path) (d : Nat)
    (hr : a.refine_factor = none)
    (hex : env.pathExists a.input_ex = true)
    (hoe : resolvedOutputEx a = some oe)
    (hmesh : getMesh (env.regionOf [a.input_ex]) = some d) :
    effectiveRefineFactor a = Except.ok [4, 4, 1] ∧
    (mainModel env a).refines
      = List.replicate ((env.regionOf [a.input_ex]).meshSize d) (4, 4, 1) := by
  have heff : effectiveRefineFactor a = Except.ok [4, 4, 1] := by
    unfold effectiveRefineFactor
    rw [hr]
  refine ⟨heff, ?_⟩
  have hloop := refineLoop_ok [4, 4, 1] 4 4 1 rfl (by omega) (by omega) (by omega)
    ((env.regionOf [a.input_ex]).meshSize d)
  unfold mainModel
  simp only [hex, hoe, heff]
  unfold refineAndExport
  simp only [readList, hmesh, hloop]

theorem c5_witness :
    effectiveRefineFactor ⟨("input.ex".data), none, none, none, none⟩
      = Except.ok [4, 4, 1] ∧
    (mainModel demoEnv ⟨("input.ex".data), none, none, none, none⟩).refines
      = [(4, 4, 1), (4, 4, 1)] := by
  have h := c5_default_refine_factor demoEnv
    ⟨("input.ex".data), none, none, none, none⟩ ("input_refined.ex".data) 3
    rfl (by decide) (by decide) (by decide)
  exact ⟨h.1, h.2.trans (by decide)⟩

/-- Claim C6: the per-axis counts are taken from the refinement spec,
axes for which the spec supplies no value defaulting to 1: for a
nonempty spec the counts are `(spec.getD 0 1, spec.getD 1 1,
spec.getD 2 1)`, and every refinement call of a run uses exactly that
triple. -/
theorem c6_counts_padding (rf : List Nat) (h : rf ≠ []) :
    countsFromSpec rf = some (rf.getD 0 1, rf.getD 1 1, rf.getD 2 1) ∧
    ∀ (env : Env) (input : Path) (oz ov : Path) (x : Nat × Nat × Nat),
      x ∈ (refineAndExport env input none rf oz ov).refines →
      x = (rf.getD 0 1, rf.getD 1 1, rf.getD 2 1) := by
  have hc : countsFromSpec rf = some (rf.getD 0 1, rf.getD 1 1, rf.getD 2 1) := by
    match rf with
    | [] => exact absurd rfl h
    | [n1] => rfl
    | [n1, n2] => rfl
    | n1 :: n2 :: n3 :: t => rfl
  refine ⟨hc, ?_⟩
  intro env input oz ov x hx
  have hmem : countsFromSpec rf = some x := by
    unfold refineAndExport at hx
    split at hx
    · simp at hx
    · split at hx
      · rename_i calls e heq
        simp only at hx
        exact refineLoop_mem rf _ x (by rw [heq]; exact hx)
      · rename_i calls heq
        simp only at hx
        exact refineLoop_mem rf _ x (by rw [heq]; exact hx)
  rw [hc] at hmem
  exact (Option.some_inj.mp hmem).symm

theorem c6_witness :
    ([5] : List Nat) ≠ [] ∧ countsFromSpec [5] = some (5, 1, 1) :=
  ⟨by decide, (c6_counts_padding [5] (by decide)).1⟩

/-- Claim C7 counterexample: with input `d/a.b.c` and no `-oe`, the run
writes the Zinc output to `d/a_refined.b` (first two dot-separated
segments of the basename), not to `d/a.b_refined.c` as the claimed
rule, basename with `_refined` inserted before its extension, yields. -/
theorem c7_default_output_ex_counterexample :
    (mainModel multiDotEnv ⟨("d/a.b.c".data), none, none, none, none⟩).writes
      = [("d/a_refined.b".data), ("d/a_refined.vtk".data)] ∧
    claimedDefaultOutputEx ("d/a.b.c".data) = ("d/a.b_refined.c".data) ∧
    ("d/a_refined.b".data) ≠ ("d/a.b_refined.c".data) := by
  exact ⟨by decide, by decide, by decide⟩

/-- Claim C7 amended: the default Zinc output path joins the input
directory with `<first dot-separated segment>_refined.<second
dot-separated segment>` of the basename (the first segment being the
basename's longest dot-free prefix); this agrees with the claimed
`<stem>_refined.<ext>` exactly when the basename has exactly one dot. -/
theorem c7_default_output_ex_amended (input : Path) (s0 s1 : Path)
    (rest : List Path) (h : splitDot (posix_basename input) = s0 :: s1 :: rest) :
    defaultOutputEx input
      = some (posix_join (posix_dirname input) (s0 ++ ("_refined.".data) ++ s1)) ∧
    s0 = (posix_basename input).takeWhile (fun c => c != '.') ∧
    (rest = [] → defaultOutputEx input = some (claimedDefaultOutputEx input)) := by
  have h1 : defaultOutputEx input
      = some (posix_join (posix_dirname input) (s0 ++ ("_refined.".data) ++ s1)) := by
    unfold defaultOutputEx
    rw [h]
  have hs0 : s0 = (posix_basename input).takeWhile (fun c => c != '.') := by
    have hh := splitDot_head_takeWhile (posix_basename input)
    rw [h] at hh
    exact hh
  refine ⟨h1, hs0, ?_⟩
  intro hrest
  subst hrest
  have hb : posix_basename input = s0 ++ '.' :: s1 := by
    have hj := joinDot_splitDot (posix_basename input)
    rw [h] at hj
    exact hj.symm
  have hd1 : ('.' : Char) ∉ s1 :=
    splitDot_mem_no_dot (posix_basename input) s1
      (by rw [h]; exact List.mem_cons_of_mem _ (List.mem_cons_self _ _))
  rw [h1]
  unfold claimedDefaultOutputEx
  rw [hb, lastDotSplit_eq s0 s1 hd1]

theorem c7_amended_witness :
    splitDot (posix_basename ("m.ex".data)) = [("m".data), ("ex".data)] ∧
    defaultOutputEx ("m.ex".data) = some ("m_refined.ex".data) ∧
    defaultOutputEx ("m.ex".data) = some (claimedDefaultOutputEx ("m.ex".data)) := by
  have h := c7_default_output_ex_amended ("m.ex".data) ("m".data) ("ex".data)
    [] (by decide)
  exact ⟨by decide, h.1.trans (by decide), h.2.2 rfl⟩

/-- Claim C8 counterexample: with input `d/a.b.c` and no `-ov`, the run
writes the VTK output to `d/a_refined.vtk` (first dot-separated segment
of the basename), not to `d/a.b_refined.vtk` as the claimed rule,
basename stem followed by `_refined.vtk`, yields. -/
theorem c8_default_output_vtk_counterexample :
    (mainModel multiDotEnv
        ⟨("d/a.b.c".data), none, none, some ("out.ex".data), none⟩).writes
      = [("out.ex".data), ("d/a_refined.vtk".data)] ∧
    claimedDefaultOutputVtk ("d/a.b.c".data) = ("d/a.b_refined.vtk".data) ∧
    ("d/a_refined.vtk".data) ≠ ("d/a.b_refined.vtk".data) := by
  exact ⟨by decide, by decide, by decide⟩

/-- Claim C8 amended: the default VTK output path joins the input
directory with the basename's longest dot-free prefix followed by
`_refined.vtk`; this agrees with the claimed `<stem>_refined.vtk`
exactly when the basename contains at most one dot. -/
theorem c8_default_output_vtk_amended (input : Path)
    (h : (splitDot (posix_basename input)).length ≤ 2) :
    defaultOutputVtk input
      = posix_join (posix_dirname input)
          ((posix_basename input).takeWhile (fun c => c != '.')
            ++ ("_refined.vtk".data)) ∧
    defaultOutputVtk input = claimedDefaultOutputVtk input := by
  constructor
  · unfold defaultOutputVtk
    rw [splitDot_head_takeWhile]
  · cases hs : splitDot (posix_basename input) with
    | nil => exact absurd hs (splitDot_ne_nil _)
    | cons s0 tail =>
      cases tail with
      | nil =>
        have hb : posix_basename input = s0 := by
          have hj := joinDot_splitDot (posix_basename input)
          rw [hs] at hj
          exact hj.symm
        have hd0 : ('.' : Char) ∉ s0 :=
          splitDot_mem_no_dot (posix_basename input) s0
            (by rw [hs]; exact List.mem_cons_self _ _)
        unfold defaultOutputVtk claimedDefaultOutputVtk
        rw [hs, hb, lastDotSplit_no_dot s0 hd0]
        rfl
      | cons s1 tail2 =>
        cases tail2 with
        | nil =>
          have hb : posix_basename input = s0 ++ '.' :: s1 := by
            have hj := joinDot_splitDot (posix_basename input)
            rw [hs] at hj
            exact hj.symm
          have hd1 : ('.' : Char) ∉ s1 :=
            splitDot_mem_no_dot (posix_basename input) s1
              (by rw [hs]; exact List.mem_cons_of_mem _ (List.mem_cons_self _ _))
          unfold defaultOutputVtk claimedDefaultOutputVtk
          rw [hs, hb, lastDotSplit_eq s0 s1 hd1]
          rfl
        | cons u us =>
          rw [hs] at h
          simp at h

theorem c8_amended_witness :
    (splitDot (posix_basename ("m.ex".data))).length ≤ 2 ∧
    defaultOutputVtk ("m.ex".data) = claimedDefaultOutputVtk ("m.ex".data) :=
  ⟨by decide, (c8_default_output_vtk_amended ("m.ex".data) (by decide)).2⟩

/-- Claim C9: the refine-factor string is converted character by
character: when every character is an ASCII digit the parse yields the
list of their values (each at most 9), any non-digit character (a comma
included) raises ValueError, and the per-element counts depend only on
the first three parsed values. -/
theorem c9_char_parsing (s : List Char) :
    ((∀ c ∈ s, 48 ≤ c.toNat ∧ c.toNat ≤ 57) →
      parseRefineFactor s = Except.ok (s.map (fun c => c.toNat - 48)) ∧
      ∀ n ∈ s.map (fun c => c.toNat - 48), n ≤ 9) ∧
    ((∃ c ∈ s, ¬ (48 ≤ c.toNat ∧ c.toNat ≤ 57)) →
      parseRefineFactor s = Except.error Err.valueError) ∧
    (∀ rf : List Nat, countsFromSpec rf = countsFromSpec (List.take 3 rf)) := by
  refine ⟨?_, parseRefineFactor_err s, ?_⟩
  · intro hall
    refine ⟨parseRefineFactor_ok s hall, ?_⟩
    intro n hn
    rcases List.mem_map.mp hn with ⟨c, hc, he⟩
    have hd := hall c hc
    omega
  · intro rf
    match rf with
    | [] => rfl
    | [a] => rfl
    | [a, b] => rfl
    | [a, b, c] => rfl
    | a :: b :: c :: d :: t => rfl

theorem c9_witness :
    (∀ c ∈ ("41".data), 48 ≤ c.toNat ∧ c.toNat ≤ 57) ∧
    parseRefineFactor ("41".data) = Except.ok [4, 1] ∧
    (∃ c ∈ ("4,1".data), ¬ (48 ≤ c.toNat ∧ c.toNat ≤ 57)) ∧
    parseRefineFactor ("4,1".data) = Except.error Err.valueError ∧
    countsFromSpec [1, 2, 3, 4] = countsFromSpec [1, 2, 3] := by
  refine ⟨by decide, ?_, by decide, ?_, ?_⟩
  · exact ((c9_char_parsing ("41".data)).1 (by decide)).1
  · exact (c9_char_parsing ("4,1".data)).2.1 (by decide)
  · exact (c9_char_parsing ("41".data)).2.2 [1, 2, 3, 4]

/-- Claim C10: when the output-Zinc option is omitted and the input
basename has no dot, the default-path derivation raises IndexError
before any file is read, any element refined, or any file written. -/
theorem c10_no_dot_index_error (env : Env) (a : Args)
    (hex : env.pathExists a.input_ex = true)
    (hoe : a.output_ex = none)
    (hdot : ('.' : Char) ∉ posix_basename a.input_ex) :
    mainModel env a = ⟨[], [], [], some Err.indexError⟩ := by
  have hres : resolvedOutputEx a = none := by
    unfold resolvedOutputEx
    rw [hoe]
    unfold defaultOutputEx
    rw [splitDot_no_dot _ hdot]
  unfold mainModel
  simp only [hex, hres]

theorem c10_witness :
    dotlessEnv.pathExists ("dir/inputex".data) = true ∧
    ('.' : Char) ∉ posix_basename ("dir/inputex".data) ∧
    mainModel dotlessEnv ⟨("dir/inputex".data), none, none, none, none⟩
      = ⟨[], [], [], some Err.indexError⟩ :=
  ⟨by decide, by decide,
    c10_no_dot_index_error dotlessEnv
      ⟨("dir/inputex".data), none, none, none, none⟩ (by decide) rfl (by decide)⟩

end MeshRefine
